import Mathlib

/-!
# Verification of `nfstools.go`

A shallow embedding of the archive-extraction tool `nfstools.go` (package
`main`) and proofs about it.  Go machine integers are modelled as `Nat`
with explicit `% 2^32` where 32-bit wraparound matters; file contents are
`List Nat` of byte values; Go strings are Lean `String`s whose byte
representation (both are UTF-8) is recovered explicitly; fallible
operations return `Except String`.  Operating-system failures (a path that
does not open, a `stat` that fails) are outside the pure model: each
embedded function models the behaviour of its source function in the runs
where the OS calls succeed, which is the regime the claims quantify over.
-/

namespace Nfstools

/-! ## Constants (from the `const` block of the source) -/

def z2002 : Nat := 12
def z2003 : Nat := 24
def extractedRoot : String := "EXTRACTED"
def unknownDir : String := "__UNKNOWN__"
def bufferSize : Nat := 32 * 1024
def headerSizeBytes : Nat := 12
def offsetShift : Nat := 11

/-! ## Data model -/

/-- The `header` struct of the source: three unsigned 32-bit fields.
Modelled with `Nat` fields; the decoder only ever produces values
`< 2^32`. -/
structure header where
  NameHash : Nat
  LocalOffset : Nat
  Size : Nat
deriving Repr, DecidableEq

/-- The Go built-in map `hlist = map[uint32]string`, modelled as a
function from key to optional value. -/
def hlist : Type := Nat → Option String

instance {ε α : Type} [DecidableEq ε] [DecidableEq α] :
    DecidableEq (Except ε α) := fun a b =>
  match a, b with
  | Except.ok x, Except.ok y =>
    if h : x = y then isTrue (by rw [h]) else isFalse (by simp [h])
  | Except.error x, Except.error y =>
    if h : x = y then isTrue (by rw [h]) else isFalse (by simp [h])
  | Except.ok _, Except.error _ => isFalse (by simp)
  | Except.error _, Except.ok _ => isFalse (by simp)

/-! ## Hash function (`getFileNameHash`) -/

/-- `getFileNameHash`, transcribed from the source loop
`for i := range len(name) { hash = 33*hash + uint32(name[i]) }` run on the
byte sequence of the Go string: an index-driven left-to-right loop over
the bytes, starting from `0xFFFFFFFF`, in unsigned 32-bit (wraparound)
arithmetic.  The argument is the list of byte values (each `0–255`). -/
def getFileNameHash (name : List Nat) : Nat :=
  (List.range name.length).foldl
    (fun hash i => (33 * hash + name.getD i 0) % 2 ^ 32) 0xFFFFFFFF

/-- The UTF-8 byte encoding of one character, as Go lays out string
bytes (`name[i]` indexes bytes of the UTF-8 representation). -/
def charBytes (c : Char) : List Nat :=
  let n := c.toNat
  if n < 0x80 then [n]
  else if n < 0x800 then
    [0xC0 ||| (n >>> 6), 0x80 ||| (n &&& 0x3F)]
  else if n < 0x10000 then
    [0xE0 ||| (n >>> 12), 0x80 ||| ((n >>> 6) &&& 0x3F), 0x80 ||| (n &&& 0x3F)]
  else
    [0xF0 ||| (n >>> 18), 0x80 ||| ((n >>> 12) &&& 0x3F),
     0x80 ||| ((n >>> 6) &&& 0x3F), 0x80 ||| (n &&& 0x3F)]

/-- The byte sequence of a Go string (Go strings are UTF-8 byte
sequences, indexed by byte). -/
def stringBytes (s : String) : List Nat :=
  s.data.flatMap charBytes

/-- `getFileNameHash` applied to a Go string value. -/
def getFileNameHashStr (s : String) : Nat :=
  getFileNameHash (stringBytes s)

/-! ## Name catalog loader (`loadHashList`) -/

/-- `loadHashList`, transcribed from the source: scan the embedded list
line by line and execute `hashes[getFileNameHash(name)] = name` for each
line in order.  The input is the list of scanned lines; the Go map write
is modelled as a function update, so a later line with the same hash
overwrites an earlier one exactly as the map assignment does. -/
def loadHashList (lines : List String) : hlist :=
  lines.foldl
    (fun hashes name =>
      fun k => if k = getFileNameHashStr name then some name else hashes k)
    (fun _ => none)

/-! ## Directory record decoder (`loadHeaders`) -/

/-- A little-endian unsigned 32-bit value from four bytes, as
`encoding/binary.LittleEndian` assembles it. -/
def u32le (b0 b1 b2 b3 : Nat) : Nat :=
  b0 + 256 * b1 + 65536 * b2 + 16777216 * b3

/-- The sequential decoding performed by
`binary.Read(f, binary.LittleEndian, &headers)`: consume the stream
twelve bytes at a time, filling the three `uint32` fields in declaration
order (`NameHash`, `LocalOffset`, `Size`); `none` models the read error
`binary.Read` reports when the stream does not hold a whole number of
records. -/
def parseHeaders : List Nat → Option (List header)
  | [] => some []
  | b0 :: b1 :: b2 :: b3 :: b4 :: b5 :: b6 :: b7 :: b8 :: b9 :: b10 :: b11 :: rest =>
    (parseHeaders rest).map
      (fun hs => ⟨u32le b0 b1 b2 b3, u32le b4 b5 b6 b7, u32le b8 b9 b10 b11⟩ :: hs)
  | _ => none

/-- `loadHeaders`, transcribed from the source: reject the file when its
byte length is not a multiple of `headerSizeBytes` (12) with the
`invalid header file size` error, otherwise decode `length/12` records
with `binary.Read` in little-endian order.  The argument is the byte
content of the directory file (so `info.Size()` is its length). -/
def loadHeaders (data : List Nat) : Except String (List header) :=
  if data.length % headerSizeBytes ≠ 0 then
    Except.error "invalid header file size"
  else
    match parseHeaders data with
    | some hs => Except.ok hs
    | none => Except.error "read headers"

/-! ## Format detector (`detectZdirType`) -/

/-- `detectZdirType`, transcribed from the source: the decision is a pure
function of the stat size of the `ZDIR` file (the open/stat themselves
are OS calls outside the pure model). -/
def detectZdirType (size : Nat) : Except String Nat :=
  if size % z2003 = 0 then Except.ok z2003
  else if size % z2002 = 0 then Except.ok z2002
  else Except.error "invalid 'ZDIR' file size"

/-! ## Output path resolver (`buildOutputPath`) -/

/-- `strings.ReplaceAll(name, backslash, slash)`: the old and new
patterns are single characters, so the replacement is a character map. -/
def replaceBackslashes (s : String) : String :=
  ⟨s.data.map (fun c => if c = '\\' then '/' else c)⟩

/-- `filepath.FromSlash` on the target (Unix) platform, where
`filepath.Separator` is already `/`: the identity. -/
def filepathFromSlash (s : String) : String := s

/-- `filepath.Join` on Unix, for arguments free of `.`, `..` and
repeated separators (on which `filepath.Clean` is the identity): drop
empty elements and join the rest with `/`.  This agrees with Go on every
argument list the program builds, including a known name that is the
empty string, where `Join("EXTRACTED", "") = "EXTRACTED"`. -/
def filepathJoin (elems : List String) : String :=
  String.intercalate "/" (elems.filter (fun s => s ≠ ""))

/-- One uppercase hexadecimal digit. -/
def hexDigit (n : Nat) : Char :=
  if n < 10 then Char.ofNat (48 + n) else Char.ofNat (55 + n)

/-- The digit loop of `fmt.Sprintf` with the uppercase-hex verb: emit
digits from the least significant end until the value is exhausted.  The
first argument is fuel, always sufficient at the call below (one digit is
produced per step and a `uint32` has at most eight hex digits, while the
fuel is `n + 1`). -/
def hexDigitsCore : Nat → Nat → List Char → List Char
  | 0, _, ds => ds
  | fuel + 1, n, ds =>
    if n / 16 = 0 then hexDigit (n % 16) :: ds
    else hexDigitsCore fuel (n / 16) (hexDigit (n % 16) :: ds)

/-- `fmt.Sprintf` with the uppercase-hex verb `X` on a `uint32`: minimal
width (no zero padding), uppercase digits, and `"0"` for zero. -/
def toHexUpper (n : Nat) : String :=
  ⟨hexDigitsCore (n + 1) n []⟩

/-- `buildOutputPath`, transcribed from the source: a known hash maps to
`Join(extractedRoot, FromSlash(ReplaceAll(name, backslash, slash)))`, an
unknown hash to `Join(extractedRoot, unknownDir, Sprintf-uppercase-hex of
LocalOffset)`. -/
def buildOutputPath (h : header) (hashList : hlist) : String :=
  match hashList h.NameHash with
  | some name =>
    filepathJoin [extractedRoot, filepathFromSlash (replaceBackslashes name)]
  | none =>
    filepathJoin [extractedRoot, unknownDir, toHexUpper h.LocalOffset]

/-! ## Archive slice extractor (`extractFile`) -/

/-- The copy loop of `io.CopyBuffer(outFile, section, buf)` where
`section = io.NewSectionReader(archive, off0, size)` and
`len(buf) = bufferSize`, started at absolute position `off` with
`limit = off0 + size`.  Each iteration of Go's copy loop asks the section
reader for at most `min(bufferSize, limit-off)` bytes; the reader's
`ReadAt` on the archive returns the bytes actually present and flags
`io.EOF` when they fall short, and the copy loop treats `io.EOF` as
normal termination *after* writing the bytes it did get.  The result is
the byte content written to the destination file. -/
def copySection (data : List Nat) (off limit : Nat) : List Nat :=
  if limit ≤ off then []
  else
    let p := min bufferSize (limit - off)
    let chunk := (data.drop off).take p
    if chunk.length < p then chunk
    else chunk ++ copySection data (off + p) limit
termination_by limit - off
decreasing_by
  simp only [bufferSize] at *
  omega

/-- `extractFile`, transcribed from the source for the runs where the
OS calls succeed (`os.Open`, `os.MkdirAll`, `os.Create`): the value is
the byte content of the freshly created destination file after
`io.CopyBuffer` over the section `[offset, offset+size)` returns.  The
error branches of the source forward OS failures and are never taken in
the pure model; crucially, a source shorter than the requested section is
*not* one of them, because the section reader reports it as `io.EOF`,
which the copy loop swallows. -/
def extractFile (archive : List Nat) (offset size : Nat) :
    Except String (List Nat) :=
  Except.ok (copySection archive offset (offset + size))

/-- The per-record extraction call of `main`:
`extractFile(archivePath, outPath, int64(hdr.LocalOffset)<<offsetShift, int64(hdr.Size))`. -/
def extractRecord (archive : List Nat) (h : header) :
    Except String (List Nat) :=
  extractFile archive (h.LocalOffset <<< offsetShift) h.Size

/-! ## Orchestrator (`main` record loop, `exitWithError`) -/

/-- The observable events of the record loop of `main`, in order: an
attempted `extractFile` call, a successful path printed to standard
output, or the `exitWithError(outPath, err)` abort. -/
inductive event where
  | extractCall (h : header)
  | printLine (s : String)
  | errorExit (context : String) (msg : String)
deriving Repr, DecidableEq

/-- The record loop of `main`, transcribed from the source: for each
header in decoded order, build the output path, call `extractFile`, abort
through `exitWithError` (which prints the failing path and the error and
exits) on failure, and print the path on success before moving to the
next record.  The I/O outcome of each extraction attempt is supplied by
the oracle `ex`, abstracting the state of the filesystem. -/
def mainLoop (hashList : hlist) (ex : header → Except String Unit) :
    List header → List event
  | [] => []
  | h :: rest =>
    event.extractCall h ::
    match ex h with
    | Except.error e => [event.errorExit (buildOutputPath h hashList) e]
    | Except.ok _ =>
      event.printLine (buildOutputPath h hashList) :: mainLoop hashList ex rest


/-! ## Helper lemmas -/

/-- The header value that record slot `i` receives. -/
def decodedHeaderAt (data : List Nat) (i : Nat) : header :=
  { NameHash := u32le (data.getD (12*i) 0) (data.getD (12*i+1) 0)
      (data.getD (12*i+2) 0) (data.getD (12*i+3) 0)
    LocalOffset := u32le (data.getD (12*i+4) 0) (data.getD (12*i+5) 0)
      (data.getD (12*i+6) 0) (data.getD (12*i+7) 0)
    Size := u32le (data.getD (12*i+8) 0) (data.getD (12*i+9) 0)
      (data.getD (12*i+10) 0) (data.getD (12*i+11) 0) }

theorem parseHeaders_complete :
    ∀ n (data : List Nat), data.length ≤ n → data.length % 12 = 0 →
      ∃ hs, parseHeaders data = some hs ∧ hs.length = data.length / 12 ∧
        ∀ i (hi : i < hs.length), hs.get ⟨i, hi⟩ = decodedHeaderAt data i := by
  intro n
  induction n with
  | zero =>
    intro data hlen hmod
    have hnil : data = [] := List.eq_nil_of_length_eq_zero (by omega)
    subst hnil
    exact ⟨[], rfl, rfl, fun i hi => absurd hi (by simp)⟩
  | succ n ih =>
    intro data hlen hmod
    rcases data with _ | ⟨b0, _ | ⟨b1, _ | ⟨b2, _ | ⟨b3, _ | ⟨b4, _ | ⟨b5, _ |
      ⟨b6, _ | ⟨b7, _ | ⟨b8, _ | ⟨b9, _ | ⟨b10, _ | ⟨b11, rest⟩⟩⟩⟩⟩⟩⟩⟩⟩⟩⟩⟩
    all_goals try (exact ⟨[], rfl, rfl, fun i hi => absurd hi (by simp)⟩)
    all_goals try (exfalso; simp at hmod; done)
    have hL : (b0::b1::b2::b3::b4::b5::b6::b7::b8::b9::b10::b11::rest).length
        = rest.length + 12 := by simp
    have hrl : rest.length ≤ n := by rw [hL] at hlen; omega
    have hrm : rest.length % 12 = 0 := by rw [hL] at hmod; omega
    obtain ⟨hs, hph, hlenr, hfields⟩ := ih rest hrl hrm
    refine ⟨⟨u32le b0 b1 b2 b3, u32le b4 b5 b6 b7, u32le b8 b9 b10 b11⟩ :: hs, ?_, ?_, ?_⟩
    · simp [parseHeaders, hph]
    · rw [hL, List.length_cons, hlenr,
        Nat.add_div_right _ (by decide : (0:Nat) < 12)]
    · intro i hi
      rcases i with _ | j
      · rfl
      · have hj : j < hs.length := by simpa using hi
        simp only [List.get_cons_succ]
        rw [hfields j hj]
        have hch : ∀ m : Nat,
            (b0::b1::b2::b3::b4::b5::b6::b7::b8::b9::b10::b11::rest).getD (m + 12) 0
              = rest.getD m 0 := by
          intro m
          show (([b0,b1,b2,b3,b4,b5,b6,b7,b8,b9,b10,b11] : List Nat) ++ rest).getD (m + 12) 0
            = rest.getD m 0
          rw [List.getD_append_right _ _ _ _ (by simp)]
          simp
        simp only [decodedHeaderAt]
        rw [show 12*(j+1)+11 = (12*j+11) + 12 from by ring,
            show 12*(j+1)+10 = (12*j+10) + 12 from by ring,
            show 12*(j+1)+9 = (12*j+9) + 12 from by ring,
            show 12*(j+1)+8 = (12*j+8) + 12 from by ring,
            show 12*(j+1)+7 = (12*j+7) + 12 from by ring,
            show 12*(j+1)+6 = (12*j+6) + 12 from by ring,
            show 12*(j+1)+5 = (12*j+5) + 12 from by ring,
            show 12*(j+1)+4 = (12*j+4) + 12 from by ring,
            show 12*(j+1)+3 = (12*j+3) + 12 from by ring,
            show 12*(j+1)+2 = (12*j+2) + 12 from by ring,
            show 12*(j+1)+1 = (12*j+1) + 12 from by ring,
            show 12*(j+1) = 12*j + 12 from by ring,
            hch (12*j), hch (12*j+1), hch (12*j+2), hch (12*j+3),
            hch (12*j+4), hch (12*j+5), hch (12*j+6), hch (12*j+7),
            hch (12*j+8), hch (12*j+9), hch (12*j+10), hch (12*j+11)]

theorem copySection_eq_aux (data : List Nat) :
    ∀ n off limit, limit - off ≤ n →
      copySection data off limit = (data.drop off).take (limit - off) := by
  intro n
  induction n with
  | zero =>
    intro off limit h
    have hle : limit ≤ off := by omega
    rw [copySection]
    simp [hle, Nat.sub_eq_zero_of_le hle]
  | succ n ih =>
    intro off limit h
    rw [copySection]
    by_cases hle : limit ≤ off
    · simp [hle, Nat.sub_eq_zero_of_le hle]
    · simp only [if_neg hle]
      set q := min bufferSize (limit - off) with hq
      by_cases hc : ((data.drop off).take q).length < q
      · simp only [if_pos hc]
        have hlen : (data.drop off).length < q := by
          simp only [List.length_take] at hc
          omega
        have hqle : q ≤ limit - off := by omega
        rw [List.take_of_length_le (by omega),
            List.take_of_length_le (by omega)]
      · simp only [if_neg hc]
        have hp1 : 1 ≤ q := by
          rw [hq]; simp only [bufferSize]; omega
        have hr : limit - off = q + (limit - (off + q)) := by
          have hqle : q ≤ limit - off := by rw [hq]; omega
          omega
        rw [ih (off + q) limit (by omega)]
        conv_rhs => rw [hr]
        rw [List.take_add, List.drop_drop]

theorem copySection_eq (data : List Nat) (off limit : Nat) :
    copySection data off limit = (data.drop off).take (limit - off) :=
  copySection_eq_aux data (limit - off) off limit (Nat.le_refl _)

theorem loadHeaders_of_mod (data : List Nat) (hmod : data.length % 12 = 0) :
    loadHeaders data =
      Except.ok ((List.range (data.length / 12)).map (decodedHeaderAt data)) := by
  obtain ⟨hs, hph, hl, hf⟩ :=
    parseHeaders_complete data.length data (Nat.le_refl _) hmod
  have hhs : hs = (List.range (data.length / 12)).map (decodedHeaderAt data) := by
    apply List.ext_get
    · simp [hl]
    · intro i h1 h2
      rw [hf i h1]
      simp
  rw [loadHeaders]
  simp [headerSizeBytes, hmod, hph, hhs]

theorem loadHashList_foldl (lines : List String) (m : hlist) (k : Nat) :
    (lines.foldl
      (fun hashes name =>
        fun k' => if k' = getFileNameHashStr name then some name else hashes k') m) k
      = (lines.reverse.find? (fun l => getFileNameHashStr l == k)).or (m k) := by
  induction lines generalizing m with
  | nil => simp
  | cons x rest ih =>
    simp only [List.foldl_cons, List.reverse_cons, List.find?_append, ih]
    cases hfind : rest.reverse.find? (fun l => getFileNameHashStr l == k) with
    | some v => simp [Option.or]
    | none =>
      simp only [Option.none_or]
      by_cases hk : k = getFileNameHashStr x
      · simp [List.find?, hk]
      · have : (getFileNameHashStr x == k) = false := by
          simp [Ne.symm hk]
        simp [List.find?, this, hk]

theorem loadHashList_eq_find (lines : List String) (k : Nat) :
    loadHashList lines k
      = lines.reverse.find? (fun l => getFileNameHashStr l == k) := by
  have h := loadHashList_foldl lines (fun _ => none) k
  simpa [loadHashList] using h

theorem hashFold_aux (l : List Nat) :
    ∀ a : Nat,
      (List.range l.length).foldl (fun h i => (33 * h + l.getD i 0) % 2 ^ 32) a
        = l.foldl (fun h b => (33 * h + b) % 2 ^ 32) a := by
  induction l with
  | nil => intro a; rfl
  | cons b rest ih =>
    intro a
    rw [List.length_cons, List.range_succ_eq_map, List.foldl_cons, List.foldl_map]
    simp only [List.getD_cons_succ, List.getD_cons_zero]
    exact ih _

/-- The two events a successful record contributes to the run, in order. -/
def successEvents (hashList : hlist) (h : header) : List event :=
  [event.extractCall h, event.printLine (buildOutputPath h hashList)]

theorem mainLoop_all_ok (hashList : hlist) (ex : header → Except String Unit) :
    ∀ hs : List header, (∀ h ∈ hs, ex h = Except.ok ()) →
      mainLoop hashList ex hs = hs.flatMap (successEvents hashList) := by
  intro hs
  induction hs with
  | nil => intro _; rfl
  | cons h rest ih =>
    intro hok
    have hh : ex h = Except.ok () := hok h (by simp)
    rw [mainLoop, hh]
    simp only [List.flatMap_cons]
    rw [ih (fun x hx => hok x (by simp [hx]))]
    rfl

theorem mainLoop_failure (hashList : hlist) (ex : header → Except String Unit) :
    ∀ (hs : List header) (i : Nat) (e : String) (hi : i < hs.length),
      (∀ j (hj : j < i), ex (hs.get ⟨j, Nat.lt_trans hj hi⟩) = Except.ok ()) →
      ex (hs.get ⟨i, hi⟩) = Except.error e →
      mainLoop hashList ex hs =
        (hs.take i).flatMap (successEvents hashList)
        ++ [event.extractCall (hs.get ⟨i, hi⟩),
            event.errorExit (buildOutputPath (hs.get ⟨i, hi⟩) hashList) e] := by
  intro hs
  induction hs with
  | nil =>
    intro i e hi
    exact absurd hi (by simp)
  | cons h rest ih =>
    intro i e hi hpre hfail
    rcases i with _ | j
    · have hfail0 : ex h = Except.error e := by simpa using hfail
      rw [mainLoop, hfail0]
      simp
    · have hj2 : j < rest.length := by simpa using hi
      have hh : ex h = Except.ok () := by
        have h0 := hpre 0 (Nat.succ_pos j)
        simpa using h0
      rw [mainLoop, hh]
      have hpre2 : ∀ j2 (hj : j2 < j),
          ex (rest.get ⟨j2, Nat.lt_trans hj hj2⟩) = Except.ok () := by
        intro j2 hjj
        have := hpre (j2 + 1) (Nat.succ_lt_succ hjj)
        simpa using this
      have hfail2 : ex (rest.get ⟨j, hj2⟩) = Except.error e := by
        simpa using hfail
      rw [ih j e hj2 hpre2 hfail2]
      simp [successEvents]

/-! ## Specification-side definitions

The definition in this section follows the specification's words, to be
compared against the embedded source function above. -/

/-- The hash as the specification words it: start from `h = 0xFFFFFFFF`
and, for each byte `b` of the sequence in order, set `h = 33*h + b` with
unsigned 32-bit wraparound arithmetic — a left fold over the byte
sequence itself. -/
def specHashFold (s : List Nat) : Nat :=
  s.foldl (fun h b => (33 * h + b) % 2 ^ 32) 0xFFFFFFFF

/-! ## Claims -/

/-- C3: for every byte sequence `s`, `getFileNameHash` (the source's
index-driven loop) equals the specification's fold, which seeds
`0xFFFFFFFF` and folds `h = 33*h + b` modulo `2^32` over the bytes in
order, each byte an unsigned value `0–255`.  As a Lean function of the
byte sequence it is pure and deterministic by construction. -/
theorem getFileNameHash_eq_specHashFold (s : List Nat) :
    getFileNameHash s = specHashFold s := by
  rw [getFileNameHash, specHashFold]
  exact hashFold_aux s 0xFFFFFFFF

/-- C6: `detectZdirType` returns the 24-byte width whenever the length is
divisible by 24 (so 24 wins every tie, since every multiple of 24 is a
multiple of 12), otherwise the 12-byte width whenever the length is
divisible by 12, otherwise the `invalid 'ZDIR' file size` error. -/
theorem detectZdirType_policy (size : Nat) :
    (size % 24 = 0 → detectZdirType size = Except.ok 24) ∧
    (size % 24 ≠ 0 → size % 12 = 0 → detectZdirType size = Except.ok 12) ∧
    (size % 24 ≠ 0 → size % 12 ≠ 0 →
      detectZdirType size = Except.error "invalid 'ZDIR' file size") := by
  refine ⟨fun h24 => ?_, fun h24 h12 => ?_, fun h24 h12 => ?_⟩
  · simp [detectZdirType, z2002, z2003, h24]
  · simp [detectZdirType, z2002, z2003, h24, h12]
  · simp [detectZdirType, z2002, z2003, h24, h12]

theorem detectZdirType_policy_witness :
    detectZdirType 24 = Except.ok 24 ∧
    detectZdirType 36 = Except.ok 12 ∧
    detectZdirType 13 = Except.error "invalid 'ZDIR' file size" :=
  ⟨(detectZdirType_policy 24).1 (by decide),
   (detectZdirType_policy 36).2.1 (by decide) (by decide),
   (detectZdirType_policy 13).2.2 (by decide) (by decide)⟩

/-- C4: a directory file whose byte length `L` is a multiple of 12
decodes to exactly `L/12` records in file order, record `i` being the
three little-endian 32-bit fields of bytes `[12*i, 12*i+12)` in
declaration order (`NameHash`, `LocalOffset`, `Size`); any other length
is rejected with the `invalid header file size` error and no records. -/
theorem loadHeaders_contract (data : List Nat) :
    (data.length % 12 = 0 →
      loadHeaders data =
        Except.ok ((List.range (data.length / 12)).map (decodedHeaderAt data))) ∧
    (data.length % 12 ≠ 0 →
      loadHeaders data = Except.error "invalid header file size") := by
  constructor
  · exact loadHeaders_of_mod data
  · intro hmod
    rw [loadHeaders]
    simp [headerSizeBytes, hmod]

theorem loadHeaders_contract_witness :
    loadHeaders [1, 0, 0, 0, 2, 0, 0, 0, 3, 0, 0, 0] =
      Except.ok [⟨1, 2, 3⟩] ∧
    loadHeaders [0] = Except.error "invalid header file size" := by
  constructor
  · rw [(loadHeaders_contract [1, 0, 0, 0, 2, 0, 0, 0, 3, 0, 0, 0]).1 (by decide)]
    decide
  · exact (loadHeaders_contract [0]).2 (by decide)

/-- C1, counterexample: an archive of 3 bytes read at offset 0 with
requested length 12 has fewer than 12 bytes available, yet `extractFile`
does not fail — it succeeds and silently copies only the 3 available
bytes, because the section reader reports the short range as `io.EOF`
and `io.CopyBuffer` treats `io.EOF` as normal termination. -/
theorem extractFile_short_source_cex :
    ([1, 2, 3] : List Nat).length - 0 < 12 ∧
    extractFile [1, 2, 3] 0 12 = Except.ok [1, 2, 3] ∧
    (extractFile [1, 2, 3] 0 12).isOk = true := by
  refine ⟨by decide, ?_, rfl⟩
  show Except.ok (copySection [1, 2, 3] 0 (0 + 12)) = _
  rw [copySection_eq]
  decide

/-- C1, amended: when fewer than `size` bytes are available at `offset`
in the source archive, `extractFile` does not fail: it succeeds and the
output file receives exactly the bytes that are available from `offset`
to the end of the archive (possibly none), silently shorter than the
requested `size`. -/
theorem extractFile_truncates (archive : List Nat) (offset size : Nat)
    (hshort : archive.length - offset < size) :
    extractFile archive offset size = Except.ok (archive.drop offset) ∧
    (archive.drop offset).length = archive.length - offset := by
  constructor
  · show Except.ok (copySection archive offset (offset + size)) = _
    rw [copySection_eq]
    congr 1
    apply List.take_of_length_le
    rw [List.length_drop]
    omega
  · exact List.length_drop offset archive

theorem extractFile_truncates_witness :
    extractFile [1, 2, 3] 2 5 = Except.ok (List.drop 2 [1, 2, 3]) ∧
    (List.drop 2 ([1, 2, 3] : List Nat)).length = ([1, 2, 3] : List Nat).length - 2 :=
  extractFile_truncates [1, 2, 3] 2 5 (by decide)

/-- C2: for a record whose byte range `[o<<11, o<<11 + n)` lies inside
the archive, the per-record extraction of `main` uses exactly the byte
offset `o <<< 11 = 2048 * o` and produces output byte-identical to the
archive's bytes in that range, of length exactly `n`. -/
theorem extractRecord_roundTrip (archive : List Nat) (h : header)
    (hin : 2048 * h.LocalOffset + h.Size ≤ archive.length) :
    h.LocalOffset <<< offsetShift = 2048 * h.LocalOffset ∧
    extractRecord archive h =
      Except.ok ((archive.drop (2048 * h.LocalOffset)).take h.Size) ∧
    ((archive.drop (2048 * h.LocalOffset)).take h.Size).length = h.Size := by
  have hshift : h.LocalOffset <<< offsetShift = 2048 * h.LocalOffset := by
    rw [offsetShift, Nat.shiftLeft_eq]
    ring
  refine ⟨hshift, ?_, ?_⟩
  · show Except.ok (copySection archive (h.LocalOffset <<< offsetShift)
      (h.LocalOffset <<< offsetShift + h.Size)) = _
    rw [copySection_eq, hshift, Nat.add_sub_cancel_left]
  · rw [List.length_take, List.length_drop]
    omega

theorem extractRecord_roundTrip_witness :
    extractRecord (List.replicate 2050 7) ⟨0, 1, 2⟩ = Except.ok [7, 7] := by
  rw [(extractRecord_roundTrip (List.replicate 2050 7) ⟨0, 1, 2⟩
        (by rw [List.length_replicate]; norm_num)).2.1]
  rw [List.drop_replicate, List.take_replicate]
  norm_num
  decide

/-- C5: `buildOutputPath` is a total pure function of the record and the
catalog: a hash present in the catalog yields
`Join(EXTRACTED, name-with-backslashes-replaced)`, an absent hash yields
`Join(EXTRACTED, __UNKNOWN__, uppercase-hex(LocalOffset))`, and the hex
rendering carries no fixed-width zero padding: `0x2A` prints as `"2A"`. -/
theorem buildOutputPath_total (h : header) (hashList : hlist) :
    (∀ name, hashList h.NameHash = some name →
      buildOutputPath h hashList =
        filepathJoin [extractedRoot, filepathFromSlash (replaceBackslashes name)]) ∧
    (hashList h.NameHash = none →
      buildOutputPath h hashList =
        filepathJoin [extractedRoot, unknownDir, toHexUpper h.LocalOffset]) ∧
    toHexUpper 0x2A = "2A" := by
  refine ⟨fun name hname => ?_, fun hnone => ?_, by decide⟩
  · rw [buildOutputPath, hname]
  · rw [buildOutputPath, hnone]

theorem buildOutputPath_total_witness :
    buildOutputPath ⟨7, 42, 0⟩ (fun k => if k = 7 then some "a\\b" else none)
      = "EXTRACTED/a/b" ∧
    buildOutputPath ⟨0, 42, 0⟩ (fun _ => none) = "EXTRACTED/__UNKNOWN__/2A" := by
  constructor
  · rw [(buildOutputPath_total ⟨7, 42, 0⟩
      (fun k => if k = 7 then some "a\\b" else none)).1 "a\\b" (by decide)]
    decide
  · rw [(buildOutputPath_total ⟨0, 42, 0⟩ (fun _ => none)).2.1 (by decide)]
    decide

/-- C7: the record loop of `main` processes records strictly in decoded
order: when every extraction succeeds, the trace is, record by record, an
extraction attempt followed immediately by printing that record's output
path (one path per line, as it completes); and when the record at index
`i` fails after the first `i` succeed, the trace is the successful
events of the first `i` records, the failing attempt, and the
`exitWithError` report of the failing record's output path and error —
no record after index `i` is attempted. -/
theorem mainLoop_order_and_abort (hashList : hlist)
    (ex : header → Except String Unit) (hs : List header) :
    ((∀ h ∈ hs, ex h = Except.ok ()) →
      mainLoop hashList ex hs = hs.flatMap (successEvents hashList)) ∧
    (∀ i e (hi : i < hs.length),
      (∀ j (hj : j < i), ex (hs.get ⟨j, Nat.lt_trans hj hi⟩) = Except.ok ()) →
      ex (hs.get ⟨i, hi⟩) = Except.error e →
      mainLoop hashList ex hs =
        (hs.take i).flatMap (successEvents hashList)
        ++ [event.extractCall (hs.get ⟨i, hi⟩),
            event.errorExit (buildOutputPath (hs.get ⟨i, hi⟩) hashList) e]) :=
  ⟨mainLoop_all_ok hashList ex hs,
   fun i e hi => mainLoop_failure hashList ex hs i e hi⟩

theorem mainLoop_order_and_abort_witness :
    mainLoop (fun _ => none)
        (fun h => if h.NameHash = 4 then Except.error "disk full" else Except.ok ())
        [⟨1, 2, 3⟩, ⟨4, 5, 6⟩, ⟨7, 8, 9⟩]
      = [event.extractCall ⟨1, 2, 3⟩,
         event.printLine "EXTRACTED/__UNKNOWN__/2",
         event.extractCall ⟨4, 5, 6⟩,
         event.errorExit "EXTRACTED/__UNKNOWN__/5" "disk full"] := by
  have hpre : ∀ j (hj : j < 1),
      (fun h : header =>
          if h.NameHash = 4 then Except.error "disk full" else Except.ok ())
        (([⟨1, 2, 3⟩, ⟨4, 5, 6⟩, ⟨7, 8, 9⟩] : List header).get
          ⟨j, Nat.lt_trans hj (by decide)⟩) = Except.ok () := by
    intro j hj
    have hj0 : j = 0 := by omega
    subst hj0
    rfl
  rw [(mainLoop_order_and_abort (fun _ => none)
        (fun h => if h.NameHash = 4 then Except.error "disk full" else Except.ok ())
        [⟨1, 2, 3⟩, ⟨4, 5, 6⟩, ⟨7, 8, 9⟩]).2 1 "disk full" (by decide) hpre rfl]
  decide

/-- C8: the catalog built by `loadHashList` is the left fold of
insertions in line order (the first conjunct, definitionally), and its
value at any key `k` is the *last* line in input order whose hash is `k`
— the first in the reversed line list — with `none` for keys no line
hashes to; a collision raises no error, the later line simply overwrites
the earlier one (last-write-wins), empty lines and duplicates
included. -/
theorem loadHashList_last_write_wins (lines : List String) :
    loadHashList lines = lines.foldl
      (fun hashes name =>
        fun k => if k = getFileNameHashStr name then some name else hashes k)
      (fun _ => none) ∧
    ∀ k, loadHashList lines k
      = lines.reverse.find? (fun l => getFileNameHashStr l == k) :=
  ⟨rfl, fun k => loadHashList_eq_find lines k⟩

/-- C9, counterexample: the hash seed is `0xFFFFFFFF` and a single
space also hashes to `0xFFFFFFFF` (since `33 * 0xFFFFFFFF + 32` is
`0xFFFFFFFF` modulo `2^32`), so the name list whose lines are an empty
line followed by a one-space line contains an empty line and yet maps
key `0xFFFFFFFF` to `" "`, not to the empty string: last-write-wins lets
the later colliding line overwrite the empty line's entry. -/
theorem emptyLine_catalog_cex :
    ("" ∈ (["", " "] : List String)) ∧
    loadHashList ["", " "] 0xFFFFFFFF = some " " ∧
    loadHashList ["", " "] 0xFFFFFFFF ≠ some "" :=
  ⟨by decide, by decide, by decide⟩

/-- C9, amended: the hash of the empty byte sequence is the seed
`0xFFFFFFFF` unchanged; consequently, when the name list contains an
empty line and no *later* line also hashes to `0xFFFFFFFF`, the catalog
maps key `0xFFFFFFFF` to the empty string, and any record with
`NameHash = 0xFFFFFFFF` resolves through the known-name branch with an
empty relative path, so its output path is the bare `EXTRACTED` root. -/
theorem emptyLine_resolves_known (pre post : List String) (h : header)
    (hpost : ∀ l ∈ post, getFileNameHashStr l ≠ 0xFFFFFFFF)
    (hh : h.NameHash = 0xFFFFFFFF) :
    getFileNameHash [] = 0xFFFFFFFF ∧
    loadHashList (pre ++ "" :: post) 0xFFFFFFFF = some "" ∧
    buildOutputPath h (loadHashList (pre ++ "" :: post)) = extractedRoot := by
  have hcat : loadHashList (pre ++ "" :: post) 0xFFFFFFFF = some "" := by
    rw [loadHashList_eq_find, List.reverse_append, List.find?_append]
    have h1 : ("" :: post).reverse.find?
        (fun l => getFileNameHashStr l == 0xFFFFFFFF) = some "" := by
      rw [List.reverse_cons, List.find?_append]
      have h2 : post.reverse.find?
          (fun l => getFileNameHashStr l == 0xFFFFFFFF) = none := by
        rw [List.find?_eq_none]
        intro x hx
        have hxm := hpost x (by simpa using hx)
        simp [hxm]
      rw [h2]
      simp only [Option.none_or]
      decide
    rw [h1]
    rfl
  refine ⟨by decide, hcat, ?_⟩
  have hlook : loadHashList (pre ++ "" :: post) h.NameHash = some "" := by
    rw [hh]
    exact hcat
  simp only [buildOutputPath, hlook]
  decide

theorem emptyLine_resolves_known_witness :
    getFileNameHash [] = 0xFFFFFFFF ∧
    loadHashList (["a"] ++ "" :: ["b"]) 0xFFFFFFFF = some "" ∧
    buildOutputPath ⟨0xFFFFFFFF, 5, 7⟩ (loadHashList (["a"] ++ "" :: ["b"]))
      = extractedRoot :=
  emptyLine_resolves_known ["a"] ["b"] ⟨0xFFFFFFFF, 5, 7⟩ (by decide) rfl

/-- C10: a directory file of byte length 0 is accepted: `loadHeaders`
succeeds with zero records (0 is a multiple of 12), and the record loop
of `main` then produces no events at all — no extraction attempt, no
printed path, no error — so the run completes successfully having
created no files. -/
theorem emptyDirectoryFile_accepted :
    loadHeaders [] = Except.ok [] ∧
    ∀ (hashList : hlist) (ex : header → Except String Unit),
      mainLoop hashList ex [] = [] :=
  ⟨rfl, fun _ _ => rfl⟩

end Nfstools
